import Mathlib

set_option linter.unusedVariables false
set_option linter.unusedSectionVars false

/-!
Verification of the Monte Carlo risk-analysis engine of this repository.

The development shallowly embeds the simulation core found in
`Tail End Risk/Mc Engine/mc_simulation.py`, `mc_stats.py`, `mc_percentiles.py`,
`mc_viz.py` and the identical logic duplicated in `monte_carlo_risk_engine.py`.
Machine floats are modelled as elements of a linear ordered field; a
numpy/pandas value that would be NaN (or non-finite) is modelled as `none` in
an `Option` result.  Grids (2-D numpy arrays) are modelled as row-major lists
of rows.  The square-root function of numpy is threaded as an explicit
function parameter `sqrt` so that every definition stays executable; the
claim theorems instantiate the field with `ℝ` and `sqrt` with `Real.sqrt`,
which is the intended reading of the float code.
-/

namespace MCEngine

variable {α : Type} [LinearOrderedField α]

/-! ## Data model of the simulator -/

/-- The statistics dictionary produced by `calculate_statistics` and consumed by
`run_monte_carlo` (fields named after the dictionary keys in `mc_stats.py`). -/
structure MCStats (α : Type) where
  stock_volatility : α
  benchmark_volatility : α
  correlation : α
  beta : α
  stock_expected_return : α
  benchmark_expected_return : α

/-- Model of the numpy global pseudo-random generator: `normalStream s i` is
the i-th draw of the standard-normal sampler after seeding with `s`.  The
stream is a fixed deterministic function, which is exactly the
reproducibility property of a seeded Mersenne Twister. -/
structure NpRandomModule (α : Type) where
  normalStream : ℕ → ℕ → α

/-- The mutable global state of the numpy random module: which seed the stream
was last seeded with and how many draws have been consumed since. -/
structure NpRandomState where
  seed : ℕ
  pos : ℕ

/-- The dictionary returned by `run_monte_carlo` in `mc_simulation.py`
(the same four arrays are stored on `self` by
`MonteCarloRiskEngine._run_monte_carlo`). -/
structure MCResult (α : Type) where
  stock_paths : List (List α)
  benchmark_paths : List (List α)
  stock_final_returns : List α
  benchmark_final_returns : List α

/-! ## Grid (2-D array) primitives -/

/-- Row-major materialization of a `rows × cols` array from an entry function;
this is how every 2-D array in `run_monte_carlo` is laid out. -/
def tabulate (rows cols : ℕ) (f : ℕ → ℕ → α) : List (List α) :=
  (List.range rows).map (fun t => (List.range cols).map (f t))

/-- Elementwise map over a grid (a numpy broadcasted unary operation). -/
def gridMap (f : α → α) (g : List (List α)) : List (List α) :=
  g.map (List.map f)

/-- Elementwise combination of two grids (a numpy broadcasted binary
operation). -/
def gridZipWith (f : α → α → α) : List (List α) → List (List α) → List (List α) :=
  List.zipWith (List.zipWith f)

/-- Running column-wise products with accumulator row `acc`: the recursion
behind the numpy cumulative product along axis 0. -/
def colCumprod (acc : List α) : List (List α) → List (List α)
  | [] => []
  | r :: rs =>
    let row := List.zipWith (· * ·) acc r
    row :: colCumprod row rs

/-- Embedding of the numpy cumulative product of `g` along axis 0: cumulative
products down each column, one output row per input row. -/
def npCumprod0 (g : List (List α)) : List (List α) :=
  colCumprod (List.replicate (g.headD []).length 1) g

/-- Entry `(t, j)` of a grid, `none` when out of range. -/
def gridGet (g : List (List α)) (t j : ℕ) : Option α :=
  g[t]?.bind (fun row => row[j]?)

/-! ## The correlated path simulator (`run_monte_carlo`) -/

/-- Embedding of a standard-normal draw block of shape `rows × cols` taken
when the global stream is at seed `seed`, position `offset`: the draws are
consumed row-major from the seeded stream. -/
def standard_normal (np : NpRandomModule α) (seed offset rows cols : ℕ) : List (List α) :=
  tabulate rows cols (fun t j => np.normalStream seed (offset + t * cols + j))

/-- The `z1` draw block of `run_monte_carlo`: the first `D*P` draws after the
hardcoded reseeding with 42. -/
def mc_z1 (np : NpRandomModule α) (D P : ℕ) : List (List α) :=
  standard_normal np 42 0 D P

/-- The `z2` draw block of `run_monte_carlo`: the next `D*P` draws of the same
seeded stream. -/
def mc_z2 (np : NpRandomModule α) (D P : ℕ) : List (List α) :=
  standard_normal np 42 (D * P) D P

/-- The benchmark daily-return expression of `run_monte_carlo` applied to one
draw: `benchmark_expected_return / 252 + benchmark_volatility / sqrt(252) * z`. -/
def benchDailyReturn (sqrt : α → α) (stats : MCStats α) (z : α) : α :=
  stats.benchmark_expected_return / 252 + stats.benchmark_volatility / sqrt 252 * z

/-- The stock daily-return expression of `run_monte_carlo` applied to one pair
of draws.  Here `sqrt (1 - correlation ^ 2)` is taken at face value; numpy
returns NaN on a negative radicand, which `stockDailyReturnNp` below models,
and the two agree whenever `correlation ^ 2 ≤ 1`. -/
def stockDailyReturn (sqrt : α → α) (stats : MCStats α) (z1 z2 : α) : α :=
  stats.stock_expected_return / 252 + stats.stock_volatility / sqrt 252 *
    (stats.correlation * z1 + sqrt (1 - stats.correlation ^ 2) * z2)

/-- Embedding of the numpy scalar square root: NaN (modelled `none`) on
negative input; no exception is raised. -/
def npSqrt (sqrt : α → α) (x : α) : Option α :=
  if x < 0 then none else some (sqrt x)

/-- NaN-aware model of the stock daily-return expression: when
`1 - correlation^2` is negative, the square root yields NaN and the whole
cell is NaN.  The source performs no clamping of the correlation. -/
def stockDailyReturnNp (sqrt : α → α) (stats : MCStats α) (z1 z2 : α) : Option α :=
  (npSqrt sqrt (1 - stats.correlation ^ 2)).map
    (fun c => stats.stock_expected_return / 252 + stats.stock_volatility / sqrt 252 *
      (stats.correlation * z1 + c * z2))

/-- The `benchmark_daily_returns` array of `run_monte_carlo`. -/
def benchmark_daily_returns (sqrt : α → α) (np : NpRandomModule α) (stats : MCStats α)
    (D P : ℕ) : List (List α) :=
  gridMap (benchDailyReturn sqrt stats) (mc_z1 np D P)

/-- The `stock_daily_returns` array of `run_monte_carlo`. -/
def stock_daily_returns (sqrt : α → α) (np : NpRandomModule α) (stats : MCStats α)
    (D P : ℕ) : List (List α) :=
  gridZipWith (stockDailyReturn sqrt stats) (mc_z1 np D P) (mc_z2 np D P)

/-- The path construction of `run_monte_carlo`: starting price times the
cumulative product of one plus the daily returns, along axis 0.  No
starting-price row is prepended. -/
def pathsGrid (price : α) (returns : List (List α)) : List (List α) :=
  gridMap (fun x => price * x) (npCumprod0 (gridMap (fun r => 1 + r) returns))

/-- Embedding of `run_monte_carlo(stock_price, benchmark_price, stats,
days_to_simulate, num_simulations)` from `mc_simulation.py` (the identical
logic appears in `MonteCarloRiskEngine._run_monte_carlo`).  The global numpy
random state `st` is threaded explicitly; the function ignores it because the
source begins by reseeding the global generator with the hardcoded seed 42,
and it leaves the global state at seed 42 after consuming the `2*D*P` draws
of `z1` and `z2`.  The source indexes the last row of the path arrays, which
raises on an empty array; the model returns an empty row when
`days_to_simulate = 0` (all claims concern `days_to_simulate ≥ 1`). -/
def run_monte_carlo (sqrt : α → α) (np : NpRandomModule α) (st : NpRandomState)
    (stock_price benchmark_price : α) (stats : MCStats α)
    (days_to_simulate num_simulations : ℕ) : MCResult α × NpRandomState :=
  let D := days_to_simulate
  let P := num_simulations
  let stock_paths := pathsGrid stock_price (stock_daily_returns sqrt np stats D P)
  let benchmark_paths := pathsGrid benchmark_price (benchmark_daily_returns sqrt np stats D P)
  let stock_final_prices := stock_paths.getLastD []
  let benchmark_final_prices := benchmark_paths.getLastD []
  ({ stock_paths := stock_paths
     benchmark_paths := benchmark_paths
     stock_final_returns := stock_final_prices.map (fun p => (p / stock_price - 1) * 100)
     benchmark_final_returns :=
       benchmark_final_prices.map (fun p => (p / benchmark_price - 1) * 100) },
   { seed := 42, pos := 2 * D * P })

/-! ## Specification-side formulas for the simulator

These definitions transcribe the formulas stated in the specification
(section 4.2) verbatim, to be compared with the source embedding above. -/

/-- Spec formula for the benchmark daily return at cell `(t, j)`, written with
the draw the source stream supplies to `z1` there. -/
def spec_r_bench (sqrt : α → α) (np : NpRandomModule α) (stats : MCStats α)
    (P t j : ℕ) : α :=
  stats.benchmark_expected_return / 252 +
    stats.benchmark_volatility / sqrt 252 * np.normalStream 42 (t * P + j)

/-- Spec formula for the instrument daily return at cell `(t, j)`, written
with the draws the source stream supplies to `z1` and `z2` there. -/
def spec_r_stock (sqrt : α → α) (np : NpRandomModule α) (stats : MCStats α)
    (D P t j : ℕ) : α :=
  stats.stock_expected_return / 252 + stats.stock_volatility / sqrt 252 *
    (stats.correlation * np.normalStream 42 (t * P + j) +
      sqrt (1 - stats.correlation ^ 2) * np.normalStream 42 (D * P + t * P + j))

/-- Spec formula for the instrument price path: starting price times the
cumulative product of one plus the daily returns along the time axis. -/
def spec_stock_path (sqrt : α → α) (np : NpRandomModule α) (stats : MCStats α)
    (stock_price : α) (D P t j : ℕ) : α :=
  stock_price * ∏ k ∈ Finset.range (t + 1), (1 + spec_r_stock sqrt np stats D P k j)

/-- Spec formula for the benchmark price path. -/
def spec_bench_path (sqrt : α → α) (np : NpRandomModule α) (stats : MCStats α)
    (benchmark_price : α) (P t j : ℕ) : α :=
  benchmark_price * ∏ k ∈ Finset.range (t + 1), (1 + spec_r_bench sqrt np stats P k j)

/-! ## The position sizer (`_plot_position_sizing`) -/

/-- The three derived quantities displayed by the position-sizing table. -/
structure PositionRec (α : Type) where
  recommended_position : α
  position_pct : α
  cash_pct : α

/-- Embedding of the position-sizing computation inside
`_plot_position_sizing` (`mc_viz.py` and `monte_carlo_risk_engine.py`):
`loss_5th` is the 5th-percentile simulated return read from the percentile
table; the guard in the source is `abs(loss_5th) > 0`. -/
def plot_position_sizing (loss_5th starting_capital max_tolerable_loss_pct : α) :
    PositionRec α :=
  let capital_at_risk := |loss_5th| / 100 * starting_capital
  let max_loss_dollars := max_tolerable_loss_pct / 100 * starting_capital
  let recommended_position :=
    if 0 < |loss_5th| then min (max_loss_dollars / |loss_5th| * 100) starting_capital
    else starting_capital
  let position_pct := recommended_position / starting_capital * 100
  { recommended_position := recommended_position
    position_pct := position_pct
    cash_pct := 100 - position_pct }

/-! ## The distribution summarizer (`mc_percentiles.py`) -/

variable [FloorRing α]

/-- Linear interpolation between order statistics of the already-sorted list
`s` at fractional position `pos`: the kernel of the default numpy percentile
method.  Out-of-range positions fall back to the nearest entry (0 for an
empty list; numpy raises there, and every claim assumes a non-empty array). -/
def interpAt (s : List α) (pos : α) : α :=
  let i := (⌊pos⌋).toNat
  match s[i]?, s[i + 1]? with
  | some a, some b => a + (pos - (i : α)) * (b - a)
  | some a, none => a
  | none, _ => 0

/-- Embedding of the numpy percentile of `xs` at level `q` in `[0, 100]`,
with the default linear interpolation between order statistics. -/
def npPercentile (xs : List α) (q : α) : α :=
  interpAt xs.mergeSort (q * ((xs.length : α) - 1) / 100)

/-- The fixed percentile set of `calculate_percentiles`. -/
def percentile_levels : List ℕ := [1, 5, 10, 25, 50, 75, 90, 95, 99]

/-- Embedding of the return-percentile table built by `calculate_percentiles`
for one returns array: one `(percentile, return)` row per fixed level. -/
def calculate_percentiles (final_returns : List α) : List (ℕ × α) :=
  percentile_levels.map (fun p => (p, npPercentile final_returns (p : α)))

/-- The dictionary returned by `calculate_cvar`. -/
structure CvarMetrics (α : Type) where
  var_95 : α
  cvar_95 : Option α
  var_99 : α
  cvar_99 : Option α

/-- Embedding of the numpy mean: NaN (modelled `none`) on an empty array. -/
def npMeanOpt (xs : List α) : Option α :=
  if xs.length = 0 then none else some (xs.sum / (xs.length : α))

/-- Embedding of `calculate_cvar` from `mc_percentiles.py`: VaR thresholds are
the 5th and 1st percentiles, CVaR is the mean of the returns at or below the
threshold. -/
def calculate_cvar (returns : List α) : CvarMetrics α :=
  let var_95 := npPercentile returns 5
  let var_99 := npPercentile returns 1
  { var_95 := var_95
    cvar_95 := npMeanOpt (returns.filter (fun r => r ≤ var_95))
    var_99 := var_99
    cvar_99 := npMeanOpt (returns.filter (fun r => r ≤ var_99)) }

/-! ## The statistics calibrator (`mc_stats.py`) -/

/-- Embedding of the trailing-window slice `series.iloc[-w:]` on a
date-indexed series, including the Python quirk that a window of 0 selects
the whole series. -/
def iloc_last (l : List (ℕ × α)) (w : ℕ) : List (ℕ × α) :=
  if w = 0 then l else l.drop (l.length - w)

/-- Embedding of `prices.pct_change().dropna()` on a date-indexed series: the
simple return for every consecutive pair, indexed by the later date (the
leading NaN row of `pct_change` is exactly the row removed by `dropna`). -/
def pct_change (l : List (ℕ × α)) : List (ℕ × α) :=
  List.zipWith (fun prev cur => (cur.1, cur.2 / prev.2 - 1)) l l.tail

/-- Embedding of the alignment step: building a two-column frame from the two
return series and dropping rows with a missing side keeps exactly the dates
present in both (inner-join semantics). -/
def alignReturns (sr br : List (ℕ × α)) : List (α × α) :=
  sr.filterMap (fun x => (br.lookup x.1).map (fun y => (x.2, y)))

/-- The aligned return pairs `calculate_statistics` derives from the two price
series and the trailing window. -/
def alignedPairs (stock_data benchmark_data : List (ℕ × α)) (w : ℕ) : List (α × α) :=
  alignReturns (pct_change (iloc_last stock_data w)) (pct_change (iloc_last benchmark_data w))

/-- Pandas sample variance (one delta degree of freedom): NaN (modelled
`none`) for fewer than two observations. -/
def sampleVar (xs : List α) : Option α :=
  if xs.length < 2 then none
  else some ((xs.map (fun x => (x - xs.sum / (xs.length : α)) ^ 2)).sum / ((xs.length : α) - 1))

/-- Pandas sample standard deviation: square root of the sample variance. -/
def sampleStd (sqrt : α → α) (xs : List α) : Option α :=
  (sampleVar xs).map sqrt

/-- Pandas sample covariance (one delta degree of freedom): NaN (modelled
`none`) for fewer than two observations. -/
def sampleCov (xy : List (α × α)) : Option α :=
  if xy.length < 2 then none
  else
    let mx := (xy.map Prod.fst).sum / (xy.length : α)
    let my := (xy.map Prod.snd).sum / (xy.length : α)
    some ((xy.map (fun p => (p.1 - mx) * (p.2 - my))).sum / ((xy.length : α) - 1))

/-- Pandas Pearson correlation of the aligned pairs: NaN (modelled `none`)
for fewer than two observations or when either sample variance vanishes. -/
def pearsonCorr (sqrt : α → α) (xy : List (α × α)) : Option α :=
  match sampleCov xy, sampleVar (xy.map Prod.fst), sampleVar (xy.map Prod.snd) with
  | some c, some vx, some vy =>
    if vx = 0 ∨ vy = 0 then none else some (c / (sqrt vx * sqrt vy))
  | _, _, _ => none

/-- The failure vocabulary the specification assigns to the calibrator.  The
source contains no raise statement, so the embedding below always returns
`Except.ok`; the error type records what the specification says could be
raised. -/
inductive MCError
  | insufficientData
  | degenerateBenchmark

/-- The statistics record built by `calculate_statistics`; every field is
optional because pandas reductions silently produce NaN (or a non-finite
quotient, for `beta`) on degenerate input. -/
structure CalibratedStats (α : Type) where
  stock_volatility : Option α
  benchmark_volatility : Option α
  correlation : Option α
  beta : Option α
  stock_expected_return : Option α
  benchmark_expected_return : Option α

/-- Embedding of `calculate_statistics` from `mc_stats.py` (the identical
logic appears in `MonteCarloRiskEngine._calculate_statistics`): slice the
trailing window of both close-price series, take simple returns, align them,
and reduce.  The two ticker-symbol parameters of the source are omitted, as
they only feed log output.  The source never raises: `beta` is a float
division whose zero-divisor case yields a non-finite float (modelled `none`),
not an exception. -/
def calculate_statistics (sqrt : α → α) (stock_data benchmark_data : List (ℕ × α))
    (historical_window : ℕ) : Except MCError (CalibratedStats α) :=
  let aligned := alignedPairs stock_data benchmark_data historical_window
  let stockCol := aligned.map Prod.fst
  let benchCol := aligned.map Prod.snd
  Except.ok
    { stock_volatility := (sampleStd sqrt stockCol).map (· * sqrt 252)
      benchmark_volatility := (sampleStd sqrt benchCol).map (· * sqrt 252)
      correlation := pearsonCorr sqrt aligned
      beta :=
        match sampleCov aligned, sampleVar benchCol with
        | some c, some v => if v = 0 then none else some (c / v)
        | _, _ => none
      stock_expected_return := (npMeanOpt stockCol).map (· * 252)
      benchmark_expected_return := (npMeanOpt benchCol).map (· * 252) }

/-! ## Grid lemmas -/

theorem zipWith_diag {β γ : Type} (f : β → β → γ) (l : List β) :
    List.zipWith f l l = l.map (fun a => f a a) := by
  induction l with
  | nil => rfl
  | cons a t ih => simp [ih]

theorem gridMap_tabulate (f : α → α) (rows cols : ℕ) (g : ℕ → ℕ → α) :
    gridMap f (tabulate rows cols g) = tabulate rows cols (fun t j => f (g t j)) := by
  simp [gridMap, tabulate, List.map_map, Function.comp_def]

theorem gridZipWith_tabulate (f : α → α → α) (rows cols : ℕ) (u v : ℕ → ℕ → α) :
    gridZipWith f (tabulate rows cols u) (tabulate rows cols v) =
      tabulate rows cols (fun t j => f (u t j) (v t j)) := by
  unfold gridZipWith tabulate
  rw [List.zipWith_map, zipWith_diag]
  apply List.map_congr_left
  intro t ht
  rw [List.zipWith_map, zipWith_diag]

theorem replicate_eq_map_range {β : Type} (n : ℕ) (c : β) :
    List.replicate n c = (List.range n).map (fun _ => c) := by
  simp [List.eq_replicate_iff]

theorem colCumprod_tabulate (cols : ℕ) (rows : ℕ) (a : ℕ → α) (f : ℕ → ℕ → α) :
    colCumprod ((List.range cols).map a) (tabulate rows cols f) =
      tabulate rows cols (fun t j => a j * ∏ k ∈ Finset.range (t + 1), f k j) := by
  induction rows generalizing a f with
  | zero => rfl
  | succ n ih =>
    have hsplit : tabulate (n + 1) cols f =
        ((List.range cols).map (f 0)) :: tabulate n cols (fun t => f (t + 1)) := by
      simp [tabulate, List.range_succ_eq_map, List.map_map, Function.comp_def]
    rw [hsplit, colCumprod]
    have hrow : List.zipWith (· * ·) ((List.range cols).map a) ((List.range cols).map (f 0)) =
        (List.range cols).map (fun j => a j * f 0 j) := by
      rw [List.zipWith_map, zipWith_diag]
    rw [hrow, ih (fun j => a j * f 0 j) (fun t j => f (t + 1) j)]
    have hgoal : tabulate (n + 1) cols (fun t j => a j * ∏ k ∈ Finset.range (t + 1), f k j) =
        ((List.range cols).map (fun j => a j * ∏ k ∈ Finset.range 1, f k j)) ::
          tabulate n cols (fun t j => a j * ∏ k ∈ Finset.range (t + 2), f k j) := by
      simp [tabulate, List.range_succ_eq_map, List.map_map, Function.comp_def]
    rw [hgoal]
    congr 1
    · apply List.map_congr_left
      intro j hj
      simp [Finset.prod_range_one]
    · unfold tabulate
      apply List.map_congr_left
      intro t ht
      apply List.map_congr_left
      intro j hj
      show a j * f 0 j * ∏ k ∈ Finset.range (t + 1), f (k + 1) j =
        a j * ∏ k ∈ Finset.range (t + 1 + 1), f k j
      conv_rhs => rw [Finset.prod_range_succ']
      ring

theorem npCumprod0_tabulate (rows cols : ℕ) (f : ℕ → ℕ → α) :
    npCumprod0 (tabulate rows cols f) =
      tabulate rows cols (fun t j => ∏ k ∈ Finset.range (t + 1), f k j) := by
  cases rows with
  | zero => rfl
  | succ n =>
    have hhead : ((tabulate (n + 1) cols f).headD []).length = cols := by
      simp [tabulate, List.range_succ_eq_map]
    rw [npCumprod0, hhead, replicate_eq_map_range,
      colCumprod_tabulate cols (n + 1) (fun _ => 1) f]
    simp

theorem pathsGrid_tabulate (price : α) (rows cols : ℕ) (r : ℕ → ℕ → α) :
    pathsGrid price (tabulate rows cols r) =
      tabulate rows cols (fun t j => price * ∏ k ∈ Finset.range (t + 1), (1 + r k j)) := by
  rw [pathsGrid, gridMap_tabulate, npCumprod0_tabulate, gridMap_tabulate]

theorem tabulate_length (rows cols : ℕ) (f : ℕ → ℕ → α) :
    (tabulate rows cols f).length = rows := by
  simp [tabulate]

theorem tabulate_row_length (rows cols : ℕ) (f : ℕ → ℕ → α) :
    ∀ r ∈ tabulate rows cols f, r.length = cols := by
  intro r hr
  simp only [tabulate, List.mem_map] at hr
  obtain ⟨t, _, rfl⟩ := hr
  simp

theorem gridGet_tabulate (rows cols : ℕ) (f : ℕ → ℕ → α) {t j : ℕ}
    (ht : t < rows) (hj : j < cols) :
    gridGet (tabulate rows cols f) t j = some (f t j) := by
  simp [gridGet, tabulate, List.getElem?_map, List.getElem?_range, ht, hj]

/-! ## Bridge lemmas: the arrays of `run_monte_carlo` in tabulated form -/

theorem benchmark_daily_returns_eq (sqrt : α → α) (np : NpRandomModule α)
    (stats : MCStats α) (D P : ℕ) :
    benchmark_daily_returns sqrt np stats D P =
      tabulate D P (fun t j =>
        benchDailyReturn sqrt stats (np.normalStream 42 (0 + t * P + j))) := by
  rw [benchmark_daily_returns, mc_z1, standard_normal, gridMap_tabulate]

theorem stock_daily_returns_eq (sqrt : α → α) (np : NpRandomModule α)
    (stats : MCStats α) (D P : ℕ) :
    stock_daily_returns sqrt np stats D P =
      tabulate D P (fun t j =>
        stockDailyReturn sqrt stats (np.normalStream 42 (0 + t * P + j))
          (np.normalStream 42 (D * P + t * P + j))) := by
  rw [stock_daily_returns, mc_z1, mc_z2, standard_normal, standard_normal,
    gridZipWith_tabulate]

theorem run_monte_carlo_stock_paths (sqrt : α → α) (np : NpRandomModule α)
    (st : NpRandomState) (sp bp : α) (stats : MCStats α) (D P : ℕ) :
    (run_monte_carlo sqrt np st sp bp stats D P).1.stock_paths =
      tabulate D P (fun t j => sp * ∏ k ∈ Finset.range (t + 1),
        (1 + stockDailyReturn sqrt stats (np.normalStream 42 (0 + k * P + j))
          (np.normalStream 42 (D * P + k * P + j)))) := by
  show pathsGrid sp (stock_daily_returns sqrt np stats D P) = _
  rw [stock_daily_returns_eq, pathsGrid_tabulate]

theorem run_monte_carlo_benchmark_paths (sqrt : α → α) (np : NpRandomModule α)
    (st : NpRandomState) (sp bp : α) (stats : MCStats α) (D P : ℕ) :
    (run_monte_carlo sqrt np st sp bp stats D P).1.benchmark_paths =
      tabulate D P (fun t j => bp * ∏ k ∈ Finset.range (t + 1),
        (1 + benchDailyReturn sqrt stats (np.normalStream 42 (0 + k * P + j)))) := by
  show pathsGrid bp (benchmark_daily_returns sqrt np stats D P) = _
  rw [benchmark_daily_returns_eq, pathsGrid_tabulate]

/-! ## Claim C1 -/

/-- C1: at every cell `(t, j)` with `t < D`, `j < P`, the simulated benchmark
daily return equals `mu_bench/252 + sigma_bench/sqrt(252) * z1`, the
instrument daily return equals
`mu_stock/252 + sigma_stock/sqrt(252) * (rho*z1 + sqrt(1-rho^2)*z2)` where
`z1` and `z2` are draws from distinct cells of the per-`(step, path)` seeded
stream, and each price path equals the starting price times the cumulative
product of one plus the daily returns along the time axis, independently per
path column; under `rho^2 <= 1` the NaN-aware reading of the stock return
agrees with this value. -/
theorem C1_return_and_path_formulas (sqrt : α → α) (np : NpRandomModule α)
    (st : NpRandomState) (stock_price benchmark_price : α) (stats : MCStats α)
    (D P t j : ℕ) (ht : t < D) (hj : j < P) (hρ : stats.correlation ^ 2 ≤ 1) :
    gridGet (benchmark_daily_returns sqrt np stats D P) t j =
      some (spec_r_bench sqrt np stats P t j) ∧
    gridGet (stock_daily_returns sqrt np stats D P) t j =
      some (spec_r_stock sqrt np stats D P t j) ∧
    stockDailyReturnNp sqrt stats (np.normalStream 42 (t * P + j))
        (np.normalStream 42 (D * P + t * P + j)) =
      some (spec_r_stock sqrt np stats D P t j) ∧
    gridGet (run_monte_carlo sqrt np st stock_price benchmark_price stats D P).1.stock_paths
        t j = some (spec_stock_path sqrt np stats stock_price D P t j) ∧
    gridGet (run_monte_carlo sqrt np st stock_price benchmark_price stats D P).1.benchmark_paths
        t j = some (spec_bench_path sqrt np stats benchmark_price P t j) := by
  have hbr : ∀ (k j' : ℕ), benchDailyReturn sqrt stats (np.normalStream 42 (0 + k * P + j')) =
      spec_r_bench sqrt np stats P k j' := by
    intro k j'
    simp [benchDailyReturn, spec_r_bench]
  have hsr : ∀ (k j' : ℕ), stockDailyReturn sqrt stats (np.normalStream 42 (0 + k * P + j'))
      (np.normalStream 42 (D * P + k * P + j')) = spec_r_stock sqrt np stats D P k j' := by
    intro k j'
    simp [stockDailyReturn, spec_r_stock]
  refine ⟨?_, ?_, ?_, ?_, ?_⟩
  · rw [benchmark_daily_returns_eq, gridGet_tabulate _ _ _ ht hj, hbr]
  · rw [stock_daily_returns_eq, gridGet_tabulate _ _ _ ht hj, hsr]
  · have h0 : ¬ (1 - stats.correlation ^ 2 < 0) := by
      push_neg
      linarith
    simp only [stockDailyReturnNp, npSqrt, if_neg h0, Option.map_some']
    rfl
  · rw [run_monte_carlo_stock_paths, gridGet_tabulate _ _ _ ht hj]
    simp only [hsr, spec_stock_path]
  · rw [run_monte_carlo_benchmark_paths, gridGet_tabulate _ _ _ ht hj]
    simp only [hbr, spec_bench_path]

/-- Witness for C1 at a concrete instance. -/
theorem C1_return_and_path_formulas_witness :
    (0 < 1) ∧ (((⟨1, 1, 0, 0, 0, 0⟩ : MCStats ℚ).correlation) ^ 2 ≤ 1) ∧
    (gridGet (benchmark_daily_returns (fun _ => (1:ℚ)) ⟨fun s i => (s : ℚ) + i⟩
        ⟨1, 1, 0, 0, 0, 0⟩ 1 1) 0 0 =
      some (spec_r_bench (fun _ => (1:ℚ)) ⟨fun s i => (s : ℚ) + i⟩ ⟨1, 1, 0, 0, 0, 0⟩ 1 0 0) ∧
    gridGet (stock_daily_returns (fun _ => (1:ℚ)) ⟨fun s i => (s : ℚ) + i⟩
        ⟨1, 1, 0, 0, 0, 0⟩ 1 1) 0 0 =
      some (spec_r_stock (fun _ => (1:ℚ)) ⟨fun s i => (s : ℚ) + i⟩ ⟨1, 1, 0, 0, 0, 0⟩ 1 1 0 0) ∧
    stockDailyReturnNp (fun _ => (1:ℚ)) (⟨1, 1, 0, 0, 0, 0⟩ : MCStats ℚ)
        ((⟨fun s i => (s : ℚ) + i⟩ : NpRandomModule ℚ).normalStream 42 (0 * 1 + 0))
        ((⟨fun s i => (s : ℚ) + i⟩ : NpRandomModule ℚ).normalStream 42 (1 * 1 + 0 * 1 + 0)) =
      some (spec_r_stock (fun _ => (1:ℚ)) ⟨fun s i => (s : ℚ) + i⟩ ⟨1, 1, 0, 0, 0, 0⟩ 1 1 0 0) ∧
    gridGet (run_monte_carlo (fun _ => (1:ℚ)) ⟨fun s i => (s : ℚ) + i⟩ ⟨0, 0⟩ 100 50
        ⟨1, 1, 0, 0, 0, 0⟩ 1 1).1.stock_paths 0 0 =
      some (spec_stock_path (fun _ => (1:ℚ)) ⟨fun s i => (s : ℚ) + i⟩ ⟨1, 1, 0, 0, 0, 0⟩
        100 1 1 0 0) ∧
    gridGet (run_monte_carlo (fun _ => (1:ℚ)) ⟨fun s i => (s : ℚ) + i⟩ ⟨0, 0⟩ 100 50
        ⟨1, 1, 0, 0, 0, 0⟩ 1 1).1.benchmark_paths 0 0 =
      some (spec_bench_path (fun _ => (1:ℚ)) ⟨fun s i => (s : ℚ) + i⟩ ⟨1, 1, 0, 0, 0, 0⟩
        50 1 0 0)) :=
  ⟨by decide, by norm_num,
    C1_return_and_path_formulas (fun _ => (1:ℚ)) ⟨fun s i => (s : ℚ) + i⟩ ⟨0, 0⟩ 100 50
      ⟨1, 1, 0, 0, 0, 0⟩ 1 1 0 0 (by decide) (by decide) (by norm_num)⟩

/-! ## Claim C2 -/

/-- C2 counterexample: at horizon 1 and one path, the stock grid has 1 row
(not `1 + 1`), and its row 0 is the price after one simulated day (200 for a
starting price of 100 and a daily return of 1), not the starting price. -/
theorem C2_grid_shape_counterexample :
    (run_monte_carlo Real.sqrt ⟨fun _ _ => 0⟩ ⟨0, 0⟩ (100:ℝ) 100
        ⟨0, 0, 0, 0, 252, 0⟩ 1 1).1.stock_paths.length ≠ 1 + 1 ∧
    gridGet (run_monte_carlo Real.sqrt ⟨fun _ _ => 0⟩ ⟨0, 0⟩ (100:ℝ) 100
        ⟨0, 0, 0, 0, 252, 0⟩ 1 1).1.stock_paths 0 0 = some 200 ∧
    (200:ℝ) ≠ 100 := by
  refine ⟨?_, ?_, by norm_num⟩
  · rw [run_monte_carlo_stock_paths, tabulate_length]
    decide
  · rw [run_monte_carlo_stock_paths, gridGet_tabulate _ _ _ (by decide) (by decide)]
    norm_num [Finset.prod_range_one, stockDailyReturn]

/-- C2 amended: for every horizon `D >= 1` and path count `P >= 1` the
simulator produces two price grids of shape `D × P` (no starting-price row is
prepended), and row 0 of each grid holds the price after the first simulated
day, starting price times one plus the first daily return. -/
theorem C2_grid_shape_amended (sqrt : α → α) (np : NpRandomModule α) (st : NpRandomState)
    (stock_price benchmark_price : α) (stats : MCStats α) (D P : ℕ)
    (hD : 1 ≤ D) (hP : 1 ≤ P) :
    (run_monte_carlo sqrt np st stock_price benchmark_price stats D P).1.stock_paths.length
        = D ∧
    (run_monte_carlo sqrt np st stock_price benchmark_price stats D P).1.benchmark_paths.length
        = D ∧
    (∀ r ∈ (run_monte_carlo sqrt np st stock_price benchmark_price stats D P).1.stock_paths,
      r.length = P) ∧
    (∀ r ∈ (run_monte_carlo sqrt np st stock_price benchmark_price stats D P).1.benchmark_paths,
      r.length = P) ∧
    (∀ j, j < P →
      gridGet (run_monte_carlo sqrt np st stock_price benchmark_price stats D P).1.stock_paths
          0 j = some (stock_price * (1 + spec_r_stock sqrt np stats D P 0 j)) ∧
      gridGet (run_monte_carlo sqrt np st stock_price benchmark_price stats D P).1.benchmark_paths
          0 j = some (benchmark_price * (1 + spec_r_bench sqrt np stats P 0 j))) := by
  refine ⟨?_, ?_, ?_, ?_, ?_⟩
  · rw [run_monte_carlo_stock_paths, tabulate_length]
  · rw [run_monte_carlo_benchmark_paths, tabulate_length]
  · rw [run_monte_carlo_stock_paths]
    exact tabulate_row_length _ _ _
  · rw [run_monte_carlo_benchmark_paths]
    exact tabulate_row_length _ _ _
  · intro j hjP
    constructor
    · rw [run_monte_carlo_stock_paths, gridGet_tabulate _ _ _ hD hjP]
      simp [Finset.prod_range_one, stockDailyReturn, spec_r_stock]
    · rw [run_monte_carlo_benchmark_paths, gridGet_tabulate _ _ _ hD hjP]
      simp [Finset.prod_range_one, benchDailyReturn, spec_r_bench]

/-- Witness for the amended C2 at a concrete instance. -/
theorem C2_grid_shape_amended_witness :
    (1 ≤ 1) ∧
    ((run_monte_carlo (fun _ => (1:ℚ)) ⟨fun s i => (s : ℚ) + i⟩ ⟨0, 0⟩ 100 50
        ⟨1, 1, 0, 0, 0, 0⟩ 1 1).1.stock_paths.length = 1 ∧
    (run_monte_carlo (fun _ => (1:ℚ)) ⟨fun s i => (s : ℚ) + i⟩ ⟨0, 0⟩ 100 50
        ⟨1, 1, 0, 0, 0, 0⟩ 1 1).1.benchmark_paths.length = 1 ∧
    (∀ r ∈ (run_monte_carlo (fun _ => (1:ℚ)) ⟨fun s i => (s : ℚ) + i⟩ ⟨0, 0⟩ 100 50
        ⟨1, 1, 0, 0, 0, 0⟩ 1 1).1.stock_paths, r.length = 1) ∧
    (∀ r ∈ (run_monte_carlo (fun _ => (1:ℚ)) ⟨fun s i => (s : ℚ) + i⟩ ⟨0, 0⟩ 100 50
        ⟨1, 1, 0, 0, 0, 0⟩ 1 1).1.benchmark_paths, r.length = 1) ∧
    (∀ j, j < 1 →
      gridGet (run_monte_carlo (fun _ => (1:ℚ)) ⟨fun s i => (s : ℚ) + i⟩ ⟨0, 0⟩ 100 50
          ⟨1, 1, 0, 0, 0, 0⟩ 1 1).1.stock_paths 0 j =
        some (100 * (1 + spec_r_stock (fun _ => (1:ℚ)) ⟨fun s i => (s : ℚ) + i⟩
          ⟨1, 1, 0, 0, 0, 0⟩ 1 1 0 j)) ∧
      gridGet (run_monte_carlo (fun _ => (1:ℚ)) ⟨fun s i => (s : ℚ) + i⟩ ⟨0, 0⟩ 100 50
          ⟨1, 1, 0, 0, 0, 0⟩ 1 1).1.benchmark_paths 0 j =
        some (50 * (1 + spec_r_bench (fun _ => (1:ℚ)) ⟨fun s i => (s : ℚ) + i⟩
          ⟨1, 1, 0, 0, 0, 0⟩ 1 0 j)))) :=
  ⟨by decide,
    C2_grid_shape_amended (fun _ => (1:ℚ)) ⟨fun s i => (s : ℚ) + i⟩ ⟨0, 0⟩ 100 50
      ⟨1, 1, 0, 0, 0, 0⟩ 1 1 (by decide) (by decide)⟩

/-! ## Claim C8 -/

/-- C8 counterexample: the caller cannot configure the seed.  With a
seed-distinguishing stream, reseeding the ambient generator with 7 or with 9
before the call changes nothing, and the draw that reaches the first
benchmark-path cell is the one of the hardcoded seed 42 (value 43 = 1 * (1 +
42)), not of the ambient seed. -/
theorem C8_seed_ignored_counterexample :
    run_monte_carlo Real.sqrt ⟨fun s i => (s : ℝ) + i⟩ ⟨7, 0⟩ (1:ℝ) 1
        ⟨0, Real.sqrt 252, 0, 0, 0, 0⟩ 1 1 =
      run_monte_carlo Real.sqrt ⟨fun s i => (s : ℝ) + i⟩ ⟨9, 0⟩ (1:ℝ) 1
        ⟨0, Real.sqrt 252, 0, 0, 0, 0⟩ 1 1 ∧
    gridGet (run_monte_carlo Real.sqrt ⟨fun s i => (s : ℝ) + i⟩ ⟨7, 0⟩ (1:ℝ) 1
        ⟨0, Real.sqrt 252, 0, 0, 0, 0⟩ 1 1).1.benchmark_paths 0 0 = some 43 := by
  refine ⟨rfl, ?_⟩
  rw [run_monte_carlo_benchmark_paths, gridGet_tabulate _ _ _ (by decide) (by decide)]
  have h252 : Real.sqrt 252 ≠ 0 := by positivity
  norm_num [Finset.prod_range_one, benchDailyReturn, div_self h252]

/-- C8 amended: the draws and hence the whole result are identical across
runs for any two ambient random states, because the simulator reseeds the
global generator with the hardcoded constant 42 on entry; the final global
state is seed 42 after the `2*D*P` draws.  The seed is not a configuration
parameter of the simulator. -/
theorem C8_hardcoded_seed_amended (sqrt : α → α) (np : NpRandomModule α)
    (st st' : NpRandomState) (stock_price benchmark_price : α) (stats : MCStats α)
    (D P : ℕ) :
    run_monte_carlo sqrt np st stock_price benchmark_price stats D P =
      run_monte_carlo sqrt np st' stock_price benchmark_price stats D P ∧
    (run_monte_carlo sqrt np st stock_price benchmark_price stats D P).2 =
      ⟨42, 2 * D * P⟩ :=
  ⟨rfl, rfl⟩

/-! ## Claim C5 -/

/-- C5 counterexample: with correlation 2 the source computes the square root
of the negative number `1 - 2^2`; numpy yields NaN (modelled `none`), so the
stock daily returns are NaN: nothing is clamped. -/
theorem C5_rho_two_nan_counterexample :
    stockDailyReturnNp Real.sqrt (⟨0, 0, 2, 0, 0, 0⟩ : MCStats ℝ) 1 1 = none ∧
    ¬ (0 ≤ (1:ℝ) - 2 ^ 2) := by
  constructor
  · norm_num [stockDailyReturnNp, npSqrt]
  · norm_num

/-- C5 amended: the simulator performs no clamping and emits no warning; for
every correlation with `rho^2 > 1` the square root of `1 - rho^2` is NaN and
every stock daily return is NaN (the benchmark side is unaffected and no
exception is raised, since the embedding is total). -/
theorem C5_no_clamping_nan_amended (sqrt : α → α) (stats : MCStats α) (z1 z2 : α)
    (h : 1 < stats.correlation ^ 2) :
    stockDailyReturnNp sqrt stats z1 z2 = none := by
  have hneg : 1 - stats.correlation ^ 2 < 0 := by linarith
  simp [stockDailyReturnNp, npSqrt, hneg]

/-- Witness for the amended C5 at correlation 2. -/
theorem C5_no_clamping_nan_witness :
    (1 < ((⟨0, 0, 2, 0, 0, 0⟩ : MCStats ℚ).correlation) ^ 2) ∧
    stockDailyReturnNp (fun _ => (1:ℚ)) (⟨0, 0, 2, 0, 0, 0⟩ : MCStats ℚ) 1 1 = none :=
  ⟨by norm_num, C5_no_clamping_nan_amended (fun _ => (1:ℚ)) ⟨0, 0, 2, 0, 0, 0⟩ 1 1
    (by norm_num)⟩

/-! ## Claim C3 -/

/-- C3 counterexample: a positive 5th-percentile return of 20 with loss
tolerance 10 and capital 100000 is not given full allocation: the source
guard is on `abs(loss_5th) > 0`, not on `loss_5th >= 0`, so it scales the
position to 50000. -/
theorem C3_positive_loss_counterexample :
    (plot_position_sizing (20:ℝ) 100000 10).recommended_position = 50000 ∧
    ((0:ℝ) ≤ 20) ∧ (50000:ℝ) ≠ 100000 := by
  refine ⟨?_, by norm_num, by norm_num⟩
  norm_num [plot_position_sizing, abs_of_pos]

/-- C3 amended: full allocation happens exactly when the 5th-percentile
return is 0; for every nonzero value (negative or positive) the recommended
capital is `min(starting_capital, (max_tolerable_loss_pct/100 *
starting_capital) / (|L|/100))`; the position and cash percentages follow
the stated formulas. -/
theorem C3_position_sizing_amended (L C M : α) (hC : 0 < C) :
    (L = 0 → (plot_position_sizing L C M).recommended_position = C) ∧
    (L ≠ 0 → (plot_position_sizing L C M).recommended_position =
      min C (M / 100 * C / (|L| / 100))) ∧
    (plot_position_sizing L C M).position_pct =
      (plot_position_sizing L C M).recommended_position / C * 100 ∧
    (plot_position_sizing L C M).cash_pct =
      100 - (plot_position_sizing L C M).position_pct := by
  refine ⟨?_, ?_, rfl, rfl⟩
  · intro h0
    subst h0
    simp [plot_position_sizing]
  · intro hL
    have habs : 0 < |L| := abs_pos.mpr hL
    show (if 0 < |L| then min (M / 100 * C / |L| * 100) C else C) =
      min C (M / 100 * C / (|L| / 100))
    rw [if_pos habs, min_comm]
    rw [div_div_eq_mul_div, div_mul_eq_mul_div]

/-- Witness for the amended C3 at the specification test vector
(5th percentile -25, capital 100000, tolerance 20). -/
theorem C3_position_sizing_witness :
    ((0:ℚ) < 100000) ∧
    (((-25:ℚ) = 0 →
        (plot_position_sizing (-25:ℚ) 100000 20).recommended_position = 100000) ∧
     ((-25:ℚ) ≠ 0 →
        (plot_position_sizing (-25:ℚ) 100000 20).recommended_position =
          min 100000 (20 / 100 * 100000 / (|(-25:ℚ)| / 100))) ∧
     (plot_position_sizing (-25:ℚ) 100000 20).position_pct =
        (plot_position_sizing (-25:ℚ) 100000 20).recommended_position / 100000 * 100 ∧
     (plot_position_sizing (-25:ℚ) 100000 20).cash_pct =
        100 - (plot_position_sizing (-25:ℚ) 100000 20).position_pct) :=
  ⟨by norm_num, C3_position_sizing_amended (-25) 100000 20 (by norm_num)⟩

/-! ## Order-statistics lemmas for the percentile summarizer -/

theorem getElem?_some_lt {β : Type} {l : List β} {i : ℕ} {b : β}
    (h : l[i]? = some b) : i < l.length := by
  by_contra hc
  rw [List.getElem?_eq_none_iff.mpr (by omega)] at h
  cases h

theorem getElem?_some_val {β : Type} {l : List β} {i : ℕ} {b : β}
    (h : l[i]? = some b) (hlt : i < l.length) : l[i] = b := by
  rw [List.getElem?_eq_getElem hlt] at h
  exact Option.some.inj h

theorem sorted_getElem_mono (s : List α) (hs : List.Pairwise (· ≤ ·) s)
    {i j : ℕ} {a b : α} (hij : i ≤ j) (ha : s[i]? = some a) (hb : s[j]? = some b) :
    a ≤ b := by
  have hj : j < s.length := getElem?_some_lt hb
  have hi : i < s.length := getElem?_some_lt ha
  rcases Nat.eq_or_lt_of_le hij with rfl | hlt
  · rw [ha] at hb
    exact le_of_eq (Option.some.inj hb)
  · have hle := List.pairwise_iff_getElem.mp hs i j hi hj hlt
    rw [getElem?_some_val ha hi, getElem?_some_val hb hj] at hle
    exact hle

theorem floor_toNat_cast_eq {pos : α} (h0 : 0 ≤ pos) :
    (((⌊pos⌋).toNat : ℕ) : α) = ((⌊pos⌋ : ℤ) : α) := by
  have h2 : (0:ℤ) ≤ ⌊pos⌋ := Int.floor_nonneg.mpr h0
  exact_mod_cast congrArg (fun z : ℤ => (z : α)) (Int.toNat_of_nonneg h2)

theorem floor_toNat_le {pos : α} {n : ℕ} (hub : pos ≤ (n : α) - 1) (hn : 1 ≤ n) :
    (⌊pos⌋).toNat ≤ n - 1 := by
  have hcast : ((n : α) - 1) = (((n : ℤ) - 1 : ℤ) : α) := by push_cast; ring
  rw [hcast] at hub
  have h1 : ⌊pos⌋ ≤ (n : ℤ) - 1 := by
    calc ⌊pos⌋ ≤ ⌊(((n : ℤ) - 1 : ℤ) : α)⌋ := Int.floor_le_floor hub
    _ = (n : ℤ) - 1 := Int.floor_intCast _
  omega

theorem interpAt_eq_of_getElem {s : List α} {pos : α} {a b : α}
    (ha : s[(⌊pos⌋).toNat]? = some a) (hb : s[(⌊pos⌋).toNat + 1]? = some b) :
    interpAt s pos = a + (pos - (((⌊pos⌋).toNat : ℕ) : α)) * (b - a) := by
  simp only [interpAt]
  rw [ha, hb]

theorem interpAt_eq_of_last {s : List α} {pos : α} {a : α}
    (ha : s[(⌊pos⌋).toNat]? = some a) (hb : s[(⌊pos⌋).toNat + 1]? = none) :
    interpAt s pos = a := by
  simp only [interpAt]
  rw [ha, hb]

theorem frac_nonneg_of_nonneg {pos : α} (h0 : 0 ≤ pos) :
    0 ≤ pos - (((⌊pos⌋).toNat : ℕ) : α) := by
  rw [floor_toNat_cast_eq h0]
  have := Int.floor_le pos
  linarith

theorem frac_le_one {pos : α} (h0 : 0 ≤ pos) :
    pos - (((⌊pos⌋).toNat : ℕ) : α) ≤ 1 := by
  rw [floor_toNat_cast_eq h0]
  have := Int.lt_floor_add_one pos
  linarith

theorem le_interpAt {s : List α} (hs : List.Pairwise (· ≤ ·) s) {pos a : α}
    (h0 : 0 ≤ pos) (ha : s[(⌊pos⌋).toNat]? = some a) : a ≤ interpAt s pos := by
  rcases hb : s[(⌊pos⌋).toNat + 1]? with _ | b
  · rw [interpAt_eq_of_last ha hb]
  · rw [interpAt_eq_of_getElem ha hb]
    have hab : a ≤ b := sorted_getElem_mono s hs (Nat.le_succ _) ha hb
    have := mul_nonneg (frac_nonneg_of_nonneg h0) (sub_nonneg.mpr hab)
    linarith

theorem interpAt_le {s : List α} (hs : List.Pairwise (· ≤ ·) s) {pos b : α}
    (h0 : 0 ≤ pos) (hb : s[(⌊pos⌋).toNat + 1]? = some b) : interpAt s pos ≤ b := by
  have hb1 : (⌊pos⌋).toNat + 1 < s.length := getElem?_some_lt hb
  have hi : (⌊pos⌋).toNat < s.length := by omega
  obtain ⟨a, ha⟩ : ∃ x, s[(⌊pos⌋).toNat]? = some x := ⟨_, List.getElem?_eq_getElem hi⟩
  rw [interpAt_eq_of_getElem ha hb]
  have hab : a ≤ b := sorted_getElem_mono s hs (Nat.le_succ _) ha hb
  have h1 := mul_le_mul_of_nonneg_right (frac_le_one h0) (sub_nonneg.mpr hab)
  linarith

theorem interpAt_mono_same {s : List α} (hs : List.Pairwise (· ≤ ·) s) {pos1 pos2 : α}
    (h01 : 0 ≤ pos1) (h12 : pos1 ≤ pos2)
    (heq : (⌊pos1⌋).toNat = (⌊pos2⌋).toNat)
    (hi : (⌊pos1⌋).toNat < s.length) :
    interpAt s pos1 ≤ interpAt s pos2 := by
  obtain ⟨a, ha1⟩ : ∃ x, s[(⌊pos1⌋).toNat]? = some x := ⟨_, List.getElem?_eq_getElem hi⟩
  have ha2 : s[(⌊pos2⌋).toNat]? = some a := by
    rw [← heq]
    exact ha1
  rcases hb : s[(⌊pos2⌋).toNat + 1]? with _ | b
  · have hb1 : s[(⌊pos1⌋).toNat + 1]? = none := by
      rw [heq]
      exact hb
    rw [interpAt_eq_of_last ha1 hb1, interpAt_eq_of_last ha2 hb]
  · have hb1 : s[(⌊pos1⌋).toNat + 1]? = some b := by
      rw [heq]
      exact hb
    rw [interpAt_eq_of_getElem ha1 hb1, interpAt_eq_of_getElem ha2 hb]
    have hcast : ((((⌊pos2⌋).toNat : ℕ)) : α) = ((((⌊pos1⌋).toNat : ℕ)) : α) := by
      rw [heq]
    rw [hcast]
    have hab : a ≤ b := sorted_getElem_mono s hs (Nat.le_succ _) ha1 hb1
    have hmul := mul_le_mul_of_nonneg_right (sub_le_sub_right h12 ((((⌊pos1⌋).toNat : ℕ)) : α))
      (sub_nonneg.mpr hab)
    linarith

theorem interpAt_mono (s : List α) (hs : List.Pairwise (· ≤ ·) s) {pos1 pos2 : α}
    (h0 : 0 ≤ pos1) (h12 : pos1 ≤ pos2) (hub : pos2 ≤ (s.length : α) - 1) :
    interpAt s pos1 ≤ interpAt s pos2 := by
  rcases Nat.eq_zero_or_pos s.length with hlen0 | hlen
  · exfalso
    rw [hlen0] at hub
    push_cast at hub
    linarith
  have h02 : 0 ≤ pos2 := le_trans h0 h12
  have hi2le : (⌊pos2⌋).toNat ≤ s.length - 1 := floor_toNat_le hub hlen
  have hi2lt : (⌊pos2⌋).toNat < s.length := by omega
  have hi12 : (⌊pos1⌋).toNat ≤ (⌊pos2⌋).toNat :=
    Int.toNat_le_toNat (Int.floor_le_floor h12)
  rcases Nat.eq_or_lt_of_le hi12 with heq | hlt
  · exact interpAt_mono_same hs h0 h12 heq (by omega)
  · have hi1b : (⌊pos1⌋).toNat + 1 < s.length := by omega
    obtain ⟨b1, hb1⟩ : ∃ x, s[(⌊pos1⌋).toNat + 1]? = some x :=
      ⟨_, List.getElem?_eq_getElem hi1b⟩
    obtain ⟨a2, ha2⟩ : ∃ x, s[(⌊pos2⌋).toNat]? = some x :=
      ⟨_, List.getElem?_eq_getElem hi2lt⟩
    calc interpAt s pos1 ≤ b1 := interpAt_le hs h0 hb1
    _ ≤ a2 := sorted_getElem_mono s hs hlt hb1 ha2
    _ ≤ interpAt s pos2 := le_interpAt hs h02 ha2

theorem mergeSort_length_eq (xs : List α) : xs.mergeSort.length = xs.length :=
  (List.mergeSort_perm xs _).length_eq

theorem npPercentile_mono (xs : List α) (h : xs ≠ []) {q1 q2 : α}
    (h0 : 0 ≤ q1) (h12 : q1 ≤ q2) (h100 : q2 ≤ 100) :
    npPercentile xs q1 ≤ npPercentile xs q2 := by
  have hn : 1 ≤ xs.length := List.length_pos.mpr h
  have hn1 : (0:α) ≤ (xs.length : α) - 1 := by
    have h1 : (1:α) ≤ (xs.length : α) := by exact_mod_cast hn
    linarith
  apply interpAt_mono _ (List.sorted_mergeSort' xs)
  · exact div_nonneg (mul_nonneg h0 hn1) (by norm_num)
  · gcongr
  · rw [mergeSort_length_eq]
    rw [div_le_iff₀ (by norm_num : (0:α) < 100)]
    nlinarith

theorem exists_min_le_npPercentile (xs : List α) (h : xs ≠ []) {q : α}
    (h0 : 0 ≤ q) (h100 : q ≤ 100) :
    ∃ m ∈ xs, (∀ x ∈ xs, m ≤ x) ∧ m ≤ npPercentile xs q := by
  have hperm := List.mergeSort_perm xs (fun a b => a ≤ b)
  have hsort := List.sorted_mergeSort' xs
  have hslen : xs.mergeSort.length = xs.length := mergeSort_length_eq xs
  have hn : 1 ≤ xs.length := List.length_pos.mpr h
  have hs0 : 0 < xs.mergeSort.length := by omega
  have hn1 : (0:α) ≤ (xs.length : α) - 1 := by
    have h1 : (1:α) ≤ (xs.length : α) := by exact_mod_cast hn
    linarith
  have hpos0 : 0 ≤ q * ((xs.length : α) - 1) / 100 :=
    div_nonneg (mul_nonneg h0 hn1) (by norm_num)
  have hposub : q * ((xs.length : α) - 1) / 100 ≤ (xs.mergeSort.length : α) - 1 := by
    rw [hslen, div_le_iff₀ (by norm_num : (0:α) < 100)]
    nlinarith
  have hilt : (⌊q * ((xs.length : α) - 1) / 100⌋).toNat < xs.mergeSort.length := by
    have := floor_toNat_le hposub (by omega)
    omega
  refine ⟨xs.mergeSort[0], ?_, ?_, ?_⟩
  · exact hperm.mem_iff.mp (xs.mergeSort.getElem_mem hs0)
  · intro x hx
    have hxs : x ∈ xs.mergeSort := hperm.mem_iff.mpr hx
    obtain ⟨k, hk, rfl⟩ := List.mem_iff_getElem.mp hxs
    exact sorted_getElem_mono _ hsort (Nat.zero_le k)
      (List.getElem?_eq_getElem hs0) (List.getElem?_eq_getElem hk)
  · show xs.mergeSort[0] ≤ interpAt xs.mergeSort (q * ((xs.length : α) - 1) / 100)
    obtain ⟨a, ha⟩ : ∃ x, xs.mergeSort[(⌊q * ((xs.length : α) - 1) / 100⌋).toNat]? =
        some x := ⟨_, List.getElem?_eq_getElem hilt⟩
    calc xs.mergeSort[0] ≤ a :=
      sorted_getElem_mono _ hsort (Nat.zero_le _) (List.getElem?_eq_getElem hs0) ha
    _ ≤ interpAt xs.mergeSort (q * ((xs.length : α) - 1) / 100) :=
      le_interpAt hsort hpos0 ha

/-! ## Claim C4 -/

/-- C4: for every non-empty returns array the summarizer returns `var_95`
equal to the 5th percentile and `var_99` equal to the 1st percentile,
`cvar_95` (resp. `cvar_99`) equal to the mean of all returns at or below the
threshold, and the selected set always contains the single worst observation
(so it is never empty and the mean exists). -/
theorem C4_var_cvar_definitions (xs : List α) (h : xs ≠ []) :
    (calculate_cvar xs).var_95 = npPercentile xs 5 ∧
    (calculate_cvar xs).var_99 = npPercentile xs 1 ∧
    (calculate_cvar xs).cvar_95 =
      npMeanOpt (xs.filter (fun r => r ≤ npPercentile xs 5)) ∧
    (calculate_cvar xs).cvar_99 =
      npMeanOpt (xs.filter (fun r => r ≤ npPercentile xs 1)) ∧
    (∃ m ∈ xs, (∀ x ∈ xs, m ≤ x) ∧
      m ∈ xs.filter (fun r => r ≤ npPercentile xs 5) ∧
      m ∈ xs.filter (fun r => r ≤ npPercentile xs 1)) ∧
    (∃ y, (calculate_cvar xs).cvar_95 = some y) ∧
    (∃ y, (calculate_cvar xs).cvar_99 = some y) := by
  obtain ⟨m5, hm5, hmin5, hle5⟩ :=
    exists_min_le_npPercentile xs h (by norm_num : (0:α) ≤ 5) (by norm_num)
  obtain ⟨m1, hm1, hmin1, hle1⟩ :=
    exists_min_le_npPercentile xs h (by norm_num : (0:α) ≤ 1) (by norm_num)
  have hm51 : m5 ≤ npPercentile xs 1 := le_trans (hmin5 m1 hm1) hle1
  have hmem5 : m5 ∈ xs.filter (fun r => r ≤ npPercentile xs 5) :=
    List.mem_filter.mpr ⟨hm5, by simpa using hle5⟩
  have hmem1 : m5 ∈ xs.filter (fun r => r ≤ npPercentile xs 1) :=
    List.mem_filter.mpr ⟨hm5, by simpa using hm51⟩
  have hsome : ∀ l : List α, m5 ∈ l → ∃ y, npMeanOpt l = some y := by
    intro l hml
    rw [npMeanOpt, if_neg (by
      intro hc
      rw [List.length_eq_zero] at hc
      rw [hc] at hml
      cases hml)]
    exact ⟨_, rfl⟩
  refine ⟨rfl, rfl, rfl, rfl, ⟨m5, hm5, hmin5, hmem5, hmem1⟩, ?_, ?_⟩
  · exact hsome _ hmem5
  · exact hsome _ hmem1

/-- Witness for C4 at a concrete returns array. -/
theorem C4_var_cvar_definitions_witness :
    ([(1:ℚ), -3, 2] ≠ []) ∧
    ((calculate_cvar [(1:ℚ), -3, 2]).var_95 = npPercentile [(1:ℚ), -3, 2] 5 ∧
    (calculate_cvar [(1:ℚ), -3, 2]).var_99 = npPercentile [(1:ℚ), -3, 2] 1 ∧
    (calculate_cvar [(1:ℚ), -3, 2]).cvar_95 =
      npMeanOpt ([(1:ℚ), -3, 2].filter (fun r => r ≤ npPercentile [(1:ℚ), -3, 2] 5)) ∧
    (calculate_cvar [(1:ℚ), -3, 2]).cvar_99 =
      npMeanOpt ([(1:ℚ), -3, 2].filter (fun r => r ≤ npPercentile [(1:ℚ), -3, 2] 1)) ∧
    (∃ m ∈ [(1:ℚ), -3, 2], (∀ x ∈ [(1:ℚ), -3, 2], m ≤ x) ∧
      m ∈ [(1:ℚ), -3, 2].filter (fun r => r ≤ npPercentile [(1:ℚ), -3, 2] 5) ∧
      m ∈ [(1:ℚ), -3, 2].filter (fun r => r ≤ npPercentile [(1:ℚ), -3, 2] 1)) ∧
    (∃ y, (calculate_cvar [(1:ℚ), -3, 2]).cvar_95 = some y) ∧
    (∃ y, (calculate_cvar [(1:ℚ), -3, 2]).cvar_99 = some y)) :=
  ⟨by simp, C4_var_cvar_definitions [(1:ℚ), -3, 2] (by simp)⟩

/-! ## Claim C9 -/

/-- C9: the percentile table over the fixed set {1,5,10,25,50,75,90,95,99}
computed with linear interpolation between order statistics is monotone:
`value(p1) <= value(p2)` whenever `p1 < p2`, for every non-empty returns
array. -/
theorem C9_percentile_table_monotone (xs : List α) (h : xs ≠ []) {p1 p2 : ℕ} {v1 v2 : α}
    (h1 : (p1, v1) ∈ calculate_percentiles xs) (h2 : (p2, v2) ∈ calculate_percentiles xs)
    (hp : p1 < p2) : v1 ≤ v2 := by
  have hbound : ∀ p ∈ percentile_levels, 1 ≤ p ∧ p ≤ 99 := by decide
  simp only [calculate_percentiles, List.mem_map] at h1 h2
  obtain ⟨a1, ha1, heq1⟩ := h1
  obtain ⟨a2, ha2, heq2⟩ := h2
  injection heq1 with hA1 hB1
  injection heq2 with hA2 hB2
  subst hA1
  subst hB1
  subst hA2
  subst hB2
  apply npPercentile_mono xs h
  · exact Nat.cast_nonneg _
  · exact_mod_cast le_of_lt hp
  · have h99 : (a2 : α) ≤ 99 := by exact_mod_cast (hbound _ ha2).2
    linarith

/-- Witness for C9 at a concrete returns array and the table rows for the 1st
and 5th percentiles. -/
theorem C9_percentile_table_monotone_witness :
    ([(3:ℚ), 1, 2] ≠ []) ∧
    (((1:ℕ), npPercentile [(3:ℚ), 1, 2] ((1:ℕ) : ℚ)) ∈ calculate_percentiles [(3:ℚ), 1, 2]) ∧
    (((5:ℕ), npPercentile [(3:ℚ), 1, 2] ((5:ℕ) : ℚ)) ∈ calculate_percentiles [(3:ℚ), 1, 2]) ∧
    ((1:ℕ) < 5) ∧
    npPercentile [(3:ℚ), 1, 2] ((1:ℕ) : ℚ) ≤ npPercentile [(3:ℚ), 1, 2] ((5:ℕ) : ℚ) := by
  have hne : [(3:ℚ), 1, 2] ≠ [] := by simp
  have hmem1 : ((1:ℕ), npPercentile [(3:ℚ), 1, 2] ((1:ℕ) : ℚ)) ∈
      calculate_percentiles [(3:ℚ), 1, 2] :=
    List.mem_map.mpr ⟨1, by decide, rfl⟩
  have hmem5 : ((5:ℕ), npPercentile [(3:ℚ), 1, 2] ((5:ℕ) : ℚ)) ∈
      calculate_percentiles [(3:ℚ), 1, 2] :=
    List.mem_map.mpr ⟨5, by decide, rfl⟩
  exact ⟨hne, hmem1, hmem5, by decide,
    C9_percentile_table_monotone _ hne hmem1 hmem5 (by decide)⟩

/-! ## Claim C10 -/

/-- C10: for every non-empty returns array and percentile level `q` in
`[0, 100]`, the set of returns at or below the interpolated percentile is
non-empty (the minimum is always at or below it), so the CVaR mean in
`calculate_cvar` is never taken over an empty selection. -/
theorem C10_cvar_selection_nonempty (xs : List α) (h : xs ≠ []) (q : α)
    (h0 : 0 ≤ q) (h100 : q ≤ 100) :
    xs.filter (fun r => r ≤ npPercentile xs q) ≠ [] ∧
    (∃ y, npMeanOpt (xs.filter (fun r => r ≤ npPercentile xs q)) = some y) ∧
    ∃ m ∈ xs, (∀ x ∈ xs, m ≤ x) ∧ m ≤ npPercentile xs q := by
  obtain ⟨m, hm, hmin, hle⟩ := exists_min_le_npPercentile xs h h0 h100
  have hne : xs.filter (fun r => r ≤ npPercentile xs q) ≠ [] := by
    simp only [ne_eq, List.filter_eq_nil_iff]
    push_neg
    exact ⟨m, hm, by simpa using hle⟩
  refine ⟨hne, ?_, ⟨m, hm, hmin, hle⟩⟩
  rw [npMeanOpt, if_neg (by
    intro hc
    rw [List.length_eq_zero] at hc
    exact hne hc)]
  exact ⟨_, rfl⟩

/-- Witness for C10 at a concrete returns array and level 50. -/
theorem C10_cvar_selection_nonempty_witness :
    ([(2:ℚ), 1] ≠ []) ∧ ((0:ℚ) ≤ 50) ∧ ((50:ℚ) ≤ 100) ∧
    ([(2:ℚ), 1].filter (fun r => r ≤ npPercentile [(2:ℚ), 1] 50) ≠ [] ∧
    (∃ y, npMeanOpt ([(2:ℚ), 1].filter (fun r => r ≤ npPercentile [(2:ℚ), 1] 50)) = some y) ∧
    ∃ m ∈ [(2:ℚ), 1], (∀ x ∈ [(2:ℚ), 1], m ≤ x) ∧ m ≤ npPercentile [(2:ℚ), 1] 50) :=
  ⟨by simp, by norm_num, by norm_num,
    C10_cvar_selection_nonempty [(2:ℚ), 1] (by simp) 50 (by norm_num) (by norm_num)⟩

/-! ## Claim C6 -/

/-- C6 counterexample: two price series whose overlap yields a single aligned
return observation (fewer than the window of 5 and fewer than 2), on which
the calibrator returns a statistics record instead of failing with
`InsufficientDataError`: the source has no such check. -/
theorem C6_returns_without_error_counterexample :
    (alignedPairs [((0:ℕ), (1:ℝ)), (1, 2)] [((0:ℕ), (1:ℝ)), (1, 2)] 5).length < 5 ∧
    (alignedPairs [((0:ℕ), (1:ℝ)), (1, 2)] [((0:ℕ), (1:ℝ)), (1, 2)] 5).length < 2 ∧
    calculate_statistics Real.sqrt [((0:ℕ), (1:ℝ)), (1, 2)] [((0:ℕ), (1:ℝ)), (1, 2)] 5 ≠
      Except.error MCError.insufficientData := by
  have hlen : (alignedPairs [((0:ℕ), (1:ℝ)), (1, 2)] [((0:ℕ), (1:ℝ)), (1, 2)] 5).length
      = 1 := by
    norm_num [alignedPairs, alignReturns, pct_change, iloc_last, List.lookup,
      List.filterMap_cons]
  refine ⟨by omega, by omega, ?_⟩
  intro hcon
  exact Except.noConfusion hcon

/-- C6 amended: the calibrator never raises; with fewer than 2 aligned return
observations it returns a statistics record whose volatilities, correlation
and beta are NaN (modelled `none`), and with an overlap shorter than the
window but at least 2 observations it silently computes over the available
overlap. -/
theorem C6_no_error_nan_stats_amended (sqrt : α → α)
    (stock_data benchmark_data : List (ℕ × α)) (w : ℕ)
    (h : (alignedPairs stock_data benchmark_data w).length < 2) :
    ∃ st, calculate_statistics sqrt stock_data benchmark_data w = Except.ok st ∧
      st.stock_volatility = none ∧ st.benchmark_volatility = none ∧
      st.correlation = none ∧ st.beta = none := by
  have hvarS : sampleVar ((alignedPairs stock_data benchmark_data w).map Prod.fst) = none := by
    rw [sampleVar, if_pos]
    rw [List.length_map]
    exact h
  have hvarB : sampleVar ((alignedPairs stock_data benchmark_data w).map Prod.snd) = none := by
    rw [sampleVar, if_pos]
    rw [List.length_map]
    exact h
  have hcov : sampleCov (alignedPairs stock_data benchmark_data w) = none := by
    rw [sampleCov, if_pos h]
  refine ⟨_, rfl, ?_, ?_, ?_, ?_⟩
  · simp [sampleStd, hvarS]
  · simp [sampleStd, hvarB]
  · simp [pearsonCorr, hcov]
  · simp [hcov]

/-- Witness for the amended C6 at a concrete pair of short price series. -/
theorem C6_no_error_nan_stats_witness :
    ((alignedPairs [((0:ℕ), (1:ℚ)), (1, 2)] [((0:ℕ), (1:ℚ)), (1, 2)] 5).length < 2) ∧
    (∃ st, calculate_statistics (fun _ => (1:ℚ)) [((0:ℕ), (1:ℚ)), (1, 2)]
        [((0:ℕ), (1:ℚ)), (1, 2)] 5 = Except.ok st ∧
      st.stock_volatility = none ∧ st.benchmark_volatility = none ∧
      st.correlation = none ∧ st.beta = none) := by
  have hlen : (alignedPairs [((0:ℕ), (1:ℚ)), (1, 2)] [((0:ℕ), (1:ℚ)), (1, 2)] 5).length
      < 2 := by
    norm_num [alignedPairs, alignReturns, pct_change, iloc_last, List.lookup,
      List.filterMap_cons]
  exact ⟨hlen, C6_no_error_nan_stats_amended (fun _ => (1:ℚ)) _ _ _ hlen⟩

/-! ## Claim C7 -/

/-- C7 counterexample: a constant benchmark price series gives aligned
benchmark returns of sample variance exactly 0, on which the calibrator
returns a record (with a non-finite beta) instead of raising
`DegenerateBenchmarkError`: the source divides by the zero variance, which in
float arithmetic is non-finite, not an exception. -/
theorem C7_zero_variance_without_error_counterexample :
    sampleVar ((alignedPairs [((0:ℕ), (1:ℝ)), (1, 2), (2, 4)]
        [((0:ℕ), (1:ℝ)), (1, 1), (2, 1)] 3).map Prod.snd) = some 0 ∧
    calculate_statistics Real.sqrt [((0:ℕ), (1:ℝ)), (1, 2), (2, 4)]
        [((0:ℕ), (1:ℝ)), (1, 1), (2, 1)] 3 ≠ Except.error MCError.degenerateBenchmark := by
  constructor
  · have haligned : alignedPairs [((0:ℕ), (1:ℝ)), (1, 2), (2, 4)]
        [((0:ℕ), (1:ℝ)), (1, 1), (2, 1)] 3 = [(1, 0), (1, 0)] := by
      norm_num [alignedPairs, alignReturns, pct_change, iloc_last, List.lookup,
        List.filterMap_cons]
      rfl
    rw [haligned]
    norm_num [sampleVar]
  · intro hcon
    exact Except.noConfusion hcon

/-- C7 amended: when the benchmark sample variance of the aligned window is
exactly zero the calibrator does not raise; it returns a record whose beta is
the non-finite float quotient, modelled `none`. -/
theorem C7_beta_nonfinite_amended (sqrt : α → α)
    (stock_data benchmark_data : List (ℕ × α)) (w : ℕ)
    (h : sampleVar ((alignedPairs stock_data benchmark_data w).map Prod.snd) = some 0) :
    ∃ st, calculate_statistics sqrt stock_data benchmark_data w = Except.ok st ∧
      st.beta = none := by
  refine ⟨_, rfl, ?_⟩
  rcases hcov : sampleCov (alignedPairs stock_data benchmark_data w) with _ | c
  · simp [hcov, h]
  · simp [hcov, h]

/-- Witness for the amended C7 at a concrete constant-benchmark input. -/
theorem C7_beta_nonfinite_witness :
    (sampleVar ((alignedPairs [((0:ℕ), (1:ℚ)), (1, 2), (2, 4)]
        [((0:ℕ), (1:ℚ)), (1, 1), (2, 1)] 3).map Prod.snd) = some 0) ∧
    (∃ st, calculate_statistics (fun _ => (1:ℚ)) [((0:ℕ), (1:ℚ)), (1, 2), (2, 4)]
        [((0:ℕ), (1:ℚ)), (1, 1), (2, 1)] 3 = Except.ok st ∧ st.beta = none) := by
  have hvar : sampleVar ((alignedPairs [((0:ℕ), (1:ℚ)), (1, 2), (2, 4)]
      [((0:ℕ), (1:ℚ)), (1, 1), (2, 1)] 3).map Prod.snd) = some 0 := by
    have haligned : alignedPairs [((0:ℕ), (1:ℚ)), (1, 2), (2, 4)]
        [((0:ℕ), (1:ℚ)), (1, 1), (2, 1)] 3 = [(1, 0), (1, 0)] := by
      norm_num [alignedPairs, alignReturns, pct_change, iloc_last, List.lookup,
        List.filterMap_cons]
      rfl
    rw [haligned]
    norm_num [sampleVar]
  exact ⟨hvar, C7_beta_nonfinite_amended (fun _ => (1:ℚ)) _ _ _ hvar⟩

end MCEngine
